import Mathlib

/-!
Verification development for the host abstraction and remote execution core
of a workflow engine (`hosts.py`).  Python strings are modelled as `List Char`
(`PStr`), Python dicts as insertion-ordered association lists, and the
filesystem (which the path mapper consults through `os.path.exists`,
`os.path.samefile`, `os.getcwd`, globbing and symlink discovery) as a record
of functions.  All definitions are executable so that concrete configurations
can be evaluated by `decide`.
-/

namespace Hosts

/-- Python `str` modelled as a list of characters (ASCII paths in practice). -/
abbrev PStr := List Char

/-- The result of Python `s.replace("\\", "/")`: since the pattern is the
single backslash character, the replacement is a character-wise map. -/
def normSlash (s : PStr) : PStr :=
  s.map (fun c => if c = '\\' then '/' else c)

/-- Python `max(xs, key=f)` on a nonempty list keeps the current maximum and
replaces it only on a strictly larger key, hence returns the first element of
maximal key.  `pickFrom f cur xs` is the running maximum starting from `cur`. -/
def pickFrom (f : PStr × PStr → Nat) (cur : PStr × PStr) : List (PStr × PStr) → PStr × PStr
  | [] => cur
  | q :: rest => pickFrom f (if f q > f cur then q else cur) rest

/-- Python `max(xs, key=f)` for a possibly empty list of path-map pairs. -/
def pickLongest (f : PStr × PStr → Nat) : List (PStr × PStr) → Option (PStr × PStr)
  | [] => none
  | q :: rest => some (pickFrom f q rest)

/-- Does the string start with `#` (a named, host-relative path)? -/
def startsHash : PStr → Bool
  | '#' :: _ => true
  | _ => false

/-- Python `os.path.isabs` on POSIX: the path starts with a separator. -/
def posixIsAbs : PStr → Bool
  | '/' :: _ => true
  | _ => false

/-- Python `os.path.join(a, b)` on POSIX for two components. -/
def joinPath (a b : PStr) : PStr :=
  if posixIsAbs b then b
  else if a.isEmpty || a.getLast? == some '/' then a ++ b
  else a ++ '/' :: b

/-- Python `os.path.basename` on POSIX: everything after the last separator. -/
def basename (p : PStr) : PStr :=
  ((p.reverse.takeWhile (fun c => c ≠ '/')).reverse)

/-- Lexicographic comparison of paths by character code, as Python compares
`str` values when `sorted` orders the keys of a staging dictionary. -/
def lexLe : PStr → PStr → Bool
  | [], _ => true
  | _ :: _, [] => false
  | a :: as, b :: bs => if a = b then lexLe as bs else decide (a < b)

/-- Insertion into a list sorted by `lexLe` on the first component. -/
def insertPair (x : PStr × PStr) : List (PStr × PStr) → List (PStr × PStr)
  | [] => [x]
  | y :: t => if lexLe x.1 y.1 then x :: y :: t else y :: insertPair x t

/-- Python `sorted(d.keys())` over an association list with unique keys,
returning the entries ordered by key. -/
def sortPairs : List (PStr × PStr) → List (PStr × PStr)
  | [] => []
  | x :: t => insertPair x (sortPairs t)

/-- Association-list lookup, i.e. Python `k in d` and `d[k]` for a dict with
unique keys (first match wins). -/
def lookupA {α : Type} : List (String × α) → String → Option α
  | [], _ => none
  | (k0, v) :: t, k => if k0 = k then some v else lookupA t k

/-- Python dict assignment `d[k] = v` for a key already present: the entry is
overwritten in place, keeping its position. -/
def updateA {α : Type} (l : List (String × α)) (k : String) (v : α) : List (String × α) :=
  l.map (fun e => if e.1 = k then (k, v) else e)

/-- Python dict insertion `d[k] = v`: overwrite in place when the key exists,
otherwise append at the end (dicts preserve insertion order). -/
def dictInsert (d : List (PStr × PStr)) (kv : PStr × PStr) : List (PStr × PStr) :=
  if (d.map Prod.fst).contains kv.1 then
    d.map (fun e => if e.1 = kv.1 then kv else e)
  else d ++ [kv]

/-- Build a Python dict from a stream of key-value assignments. -/
def buildDict (l : List (PStr × PStr)) : List (PStr × PStr) :=
  l.foldl dictInsert []

/-- The filesystem and host environment the remote agent consults: absolute
path resolution (`os.path.abspath(os.path.expanduser(.))`), the current
working directory, existence and inode-identity tests, named-path resolution
(the external `path(source, host=...)` type), shell globbing
(`x.parent.glob(x.name)`), symlink real-target discovery
(`find_symbolic_links`), and the exit status of a staging transfer command. -/
structure FileSystem where
  absPath : PStr → PStr
  cwd : PStr
  existsPath : PStr → Bool
  samefile : PStr → PStr → Bool
  resolveNamed : PStr → PStr
  glob : PStr → List PStr
  linkTargets : PStr → List PStr
  transferOk : PStr → PStr → Bool

/-- The `dest` computed by `RemoteHost._map_var` before prefix matching: the
absolute user-expanded path, with its leading segment replaced by the
canonical spelling of the current working directory when the two name the
same file (the case-insensitive-filesystem normalisation of issue 522). -/
def mapDest (fs : FileSystem) (source : PStr) : PStr :=
  let dest := fs.absPath source
  if fs.existsPath (dest.take fs.cwd.length) && fs.samefile (dest.take fs.cwd.length) fs.cwd
  then fs.cwd ++ dest.drop fs.cwd.length
  else dest

/-- The `matched` list of `RemoteHost._map_var`: path-map entries whose key
names the same file as the leading segment of `dest` (by inode identity). -/
def mapMatched (fs : FileSystem) (pm : List (PStr × PStr)) (dest : PStr) : List (PStr × PStr) :=
  pm.filter (fun q =>
    fs.existsPath (dest.take q.1.length) && fs.samefile (dest.take q.1.length) q.1)

/-- `RemoteHost._map_var` on a single string: named paths go through the
named-path registry; otherwise the longest inode-matching path-map key is
replaced by its remote counterpart, and separators are normalised to `/`.
The same computation produces the values of the `_map_path` dictionary. -/
def mapVar (fs : FileSystem) (pm : List (PStr × PStr)) (source : PStr) : PStr :=
  if startsHash source then fs.resolveNamed source
  else
    let d := mapDest fs source
    match pickLongest (fun q => q.1.length) (mapMatched fs pm d) with
    | some q => normSlash (q.2 ++ d.drop q.1.length)
    | none => normSlash d

/-- The `matched` list of `RemoteHost._reverse_map_var`: pairs whose remote
side is a lexical prefix of the input, aligned on a separator boundary
(equal length, remote side ending in a separator, or a separator at the
boundary position of the input). -/
def reverseMatched (pm : List (PStr × PStr)) (dest : PStr) : List (PStr × PStr) :=
  pm.filter (fun q =>
    q.2.isPrefixOf dest &&
    (q.2.length == dest.length ||
     q.2.getLast? == some '/' || q.2.getLast? == some '\\' ||
     (dest.drop q.2.length).head? == some '/' || (dest.drop q.2.length).head? == some '\\'))

/-- `RemoteHost._reverse_map_var` on a single string.  Note that
`max(matched, key=len)` ranges over the *local* keys of the path map, so the
pair with the longest local side is chosen. -/
def reverseMapVar (pm : List (PStr × PStr)) (dest : PStr) : PStr :=
  match pickLongest (fun q => q.1.length) (reverseMatched pm dest) with
  | some q => normSlash (q.1 ++ dest.drop q.2.length)
  | none => normSlash dest

/-- Modelled from the spec: the reverse mapping as the specification words it,
picking among the aligned pairs the one whose matched remote side is longest
(`reverseMapVar` instead maximises the length of the local side). -/
def reverseMapVarSpecRead (pm : List (PStr × PStr)) (dest : PStr) : PStr :=
  match pickLongest (fun q => q.2.length) (reverseMatched pm dest) with
  | some q => normSlash (q.1 ++ dest.drop q.2.length)
  | none => normSlash dest

/-- `RemoteHost.is_shared`: the absolute expanded path lies under a shared
directory and under no path-map key (issue 710: the path map wins). -/
def isShared (fs : FileSystem) (sharedDirs : List PStr) (pm : List (PStr × PStr))
    (p : PStr) : Bool :=
  let fullpath := fs.absPath p
  sharedDirs.any (fun sdir =>
    sdir.isPrefixOf fullpath && !(pm.any (fun q => q.1.isPrefixOf fullpath)))

/-- `RemoteHost._remote_abs`: an already absolute path is kept, otherwise it
is joined to the remote image of the current working directory. -/
def remoteAbs (fs : FileSystem) (pm : List (PStr × PStr)) (p : PStr) : PStr :=
  if posixIsAbs p then p else joinPath (mapVar fs pm fs.cwd) p

/-- A concrete filesystem: every path exists, inode identity is string
equality (a case-sensitive filesystem without links), paths are already
absolute, globs are literal and there are no symbolic links. -/
def cfs : FileSystem :=
  { absPath := id
    cwd := ['/']
    existsPath := fun _ => true
    samefile := fun a b => a == b
    resolveNamed := id
    glob := fun p => [p]
    linkTargets := fun _ => []
    transferOk := fun _ _ => true }

/-! Path-map literal parsing (`RemoteHost._get_path_map`, list-of-strings
branch).  The separator `" -> "` has four characters; Python's
`v.split(" -> ")` cuts at each non-overlapping occurrence from the left. -/

/-- The separator of a path-map literal. -/
def sepArrow : PStr := " -> ".data

/-- Python `v.split(" -> ")`. -/
def splitArrow : PStr → List PStr
  | [] => [[]]
  | ' ' :: '-' :: '>' :: ' ' :: rest => [] :: splitArrow rest
  | c :: rest =>
    match splitArrow rest with
    | [] => [[c]]
    | h :: t => (c :: h) :: t

/-- The number of occurrences of `" -> "` in `v` (Python `v.count(" -> ")`),
through the length of the split. -/
def countArrow (v : PStr) : Nat := (splitArrow v).length - 1

/-- The ValueError message of `_get_path_map`, naming the offending entry. -/
def pathMapMsg (v : PStr) : PStr :=
  "Path map should be separated as from -> to, ".data ++ v ++ " specified".data

/-- `RemoteHost._get_path_map` on a list of string literals: an entry without
exactly one `" -> "` separator aborts with a ValueError naming the entry;
otherwise the two halves become a (from, to) pair of the map. -/
def getPathMap : List PStr → Except PStr (List (PStr × PStr))
  | [] => .ok []
  | v :: rest =>
    match splitArrow v with
    | [a, b] => (getPathMap rest).map (fun r => (a, b) :: r)
    | _ => .error (pathMapMsg v)

/-! The tunneled command channel (`RemoteHost.connect_to_server`).  Time and
socket internals are abstracted into a world: whether the probe of the cached
socket answers `alive` with `yes` within its poll deadline, and whether the
n-th call to `_create_tunneled_socket` yields a verified socket. -/

/-- The observable environment of one `connect_to_server` call. -/
structure ConnectWorld where
  cachedAlive : Bool
  createOk : Nat → Bool

/-- The observable outcome of `connect_to_server`: whether the cached socket
was reused, whether the remote helper was started, how many sockets were
opened, how many one-second sleeps happened, and whether a socket was
returned (`connected = false` means the fatal RuntimeError was raised). -/
structure ConnectOutcome where
  usedCache : Bool
  helperStarted : Bool
  creations : Nat
  sleeps : Nat
  connected : Bool
deriving DecidableEq

/-- The retry loop of `connect_to_server`.  The Python loop counts `attempts`
upward and retries while `attempts < 5`; here `retriesLeft = 5 - attempts`
counts downward so that the recursion is structural.  `calls` and `slept`
count socket creations and sleeps so far; the result is the final
(creations, sleeps, success) triple. -/
def connectLoop (w : ConnectWorld) : Nat → Nat → Nat → Nat × Nat × Bool
  | retriesLeft, calls, slept =>
    if w.createOk calls then (calls + 1, slept, true)
    else
      match retriesLeft with
      | Nat.succ r => connectLoop w r (calls + 1) (slept + 1)
      | 0 => (calls + 1, slept, false)

/-- `RemoteHost.connect_to_server`: reuse the cached socket when its `alive`
probe succeeds; otherwise fire off the remote `sos server` helper and enter
the retry loop with `attempts = 0`. -/
def connectToServer (w : ConnectWorld) : ConnectOutcome :=
  if w.cachedAlive then
    { usedCache := true, helperStarted := false, creations := 0, sleeps := 0, connected := true }
  else
    let r := connectLoop w 5 0 0
    { usedCache := false, helperStarted := true, creations := r.1, sleeps := r.2.1,
      connected := r.2.2 }

/-! Resource ceilings in task preparation.  `max_mem` is in bytes and
`max_cores` an integer after standardisation by `Host._get_config`;
walltimes are compared through the external `expand_time`, modelled as an
abstract valuation `et` of walltime strings in seconds. -/

/-- The resource ceilings of a host configuration (absent key = `none`). -/
structure HostLimits where
  maxMem : Option Nat
  maxCores : Option Nat
  maxWalltime : Option String

/-- The resource requests in a task's `_runtime` (absent key = `none`). -/
structure TaskRuntime where
  mem : Option Nat
  cores : Option Nat
  walltime : Option String

/-- Python `config.get(k) is not None and task.get(k) is not None and
config[k] < task[k]` for a numeric resource. -/
def exceedsNat : Option Nat → Option Nat → Bool
  | some limit, some req => decide (limit < req)
  | _, _ => false

/-- The walltime comparison `expand_time(limit) < expand_time(request)`,
guarded by presence of both values. -/
def exceedsTime (et : String → Nat) : Option String → Option String → Bool
  | some limit, some req => decide (et limit < et req)
  | _, _ => false

/-- The resource-limit portion of `LocalHost.prepare_task`: when any ceiling
is configured, each of mem, cores and walltime is checked in turn and an
exceeded ceiling makes the method return `False`; otherwise preparation
continues and the method returns `True`. -/
def localPrepareCheck (et : String → Nat) (cfg : HostLimits) (rt : TaskRuntime) : Bool :=
  if cfg.maxMem.isSome || cfg.maxCores.isSome || cfg.maxWalltime.isSome then
    if exceedsNat cfg.maxMem rt.mem then false
    else if exceedsNat cfg.maxCores rt.cores then false
    else if exceedsTime et cfg.maxWalltime rt.walltime then false
    else true
  else true

/-- The resource-limit portion of `RemoteHost._prepare_task`: an exceeded
ceiling raises a ValueError (here `Except.error`). -/
def remotePrepareCheck (et : String → Nat) (cfg : HostLimits) (rt : TaskRuntime) :
    Except String Unit :=
  if exceedsNat cfg.maxMem rt.mem then .error "requested more mem than allowed max_mem"
  else if exceedsNat cfg.maxCores rt.cores then .error "requested more cores than allowed max_cores"
  else if exceedsTime et cfg.maxWalltime rt.walltime then
    .error "requested more walltime than allowed max_walltime"
  else .ok ()

/-- The public `RemoteHost.prepare_task` wrapper: `_prepare_task` 's
resource checks run first, then the rest of the preparation (staging,
runtime rewriting, upload — abstracted as `rest`); any exception is caught,
logged and turned into `False`. -/
def remotePrepareTask (et : String → Nat) (cfg : HostLimits) (rt : TaskRuntime)
    (rest : Except String Unit) : Bool :=
  match remotePrepareCheck et cfg rt >>= fun _ => rest with
  | .ok _ => true
  | .error _ => false

/-! Result retrieval (`RemoteHost.receive_result`, output-rewriting part,
lines 1199-1222).  `sos_targets` values carry their paths and whether they
are undetermined. -/

/-- The external `sos_targets` value object: a list of paths and its
`undetermined()` flag. -/
structure STargets where
  paths : List PStr
  undet : Bool
deriving DecidableEq

/-- The `sos_dict` of one subtask's parameters, as far as the rewrite reads
it: the declared `_output`, when present. -/
structure SubParams where
  outputDecl : Option STargets
deriving DecidableEq

/-- The task parameters the rewrite reads: the declared `_output` of the task
and the stack of (subtask id, subtask parameters) pairs. -/
structure TaskParams where
  outputDecl : Option STargets
  taskStack : List (String × SubParams)

/-- The task result fields the rewrite touches: the reported `output` (remote
paths) and the per-subtask results, each with an optional reported output. -/
structure TaskRes where
  output : Option (List PStr)
  subtasks : Option (List (String × Option (List PStr)))
deriving DecidableEq

/-- The translation applied to one reported output list: a missing `_output`
declaration yields an empty target set, an undetermined declaration is
reverse-mapped path by path, and a determined declaration replaces the
reported output outright. -/
def rewriteOutput (pm : List (PStr × PStr)) (decl : Option STargets) (out : List PStr) :
    List PStr :=
  match decl with
  | none => []
  | some t => if t.undet then out.map (reverseMapVar pm) else t.paths

/-- The `for tid, subparams in params.task_stack` loop: each subtask present
in the reported `subtasks` dictionary with an `output` key has that output
rewritten in place. -/
def rewriteSubtasks (pm : List (PStr × PStr)) :
    List (String × SubParams) → List (String × Option (List PStr)) →
      List (String × Option (List PStr))
  | [], subs => subs
  | (tid, sp) :: stack, subs =>
    match lookupA subs tid with
    | some (some out) =>
      rewriteSubtasks pm stack (updateA subs tid (some (rewriteOutput pm sp.outputDecl out)))
    | _ => rewriteSubtasks pm stack subs

/-- The output-rewriting tail of `RemoteHost.receive_result` on a successful
result: the top-level `output` field, if reported, and then each subtask
recorded in `task_stack`. -/
def receiveResultRewrite (pm : List (PStr × PStr)) (params : TaskParams) (res : TaskRes) :
    TaskRes :=
  let res1 : TaskRes :=
    match res.output with
    | some out => { res with output := some (rewriteOutput pm params.outputDecl out) }
    | none => res
  match res1.subtasks with
  | some subs => { res1 with subtasks := some (rewriteSubtasks pm params.taskStack subs) }
  | none => res1

/-! The host registry (`Host.host_instances`, `Host._get_host_agent`,
`Host.reset`).  Object identity is modelled by a strictly increasing id
counter: a newly constructed agent carries an id no existing agent has. -/

/-- A cached host agent: its identity and whether its attached task engine
reports stopped. -/
structure HostAgent where
  aid : Nat
  engineStopped : Bool
deriving DecidableEq

/-- `Host._get_host_agent`: reuse the cached agent unless the alias is
unknown or the cached agent's engine has stopped, in which case a fresh
agent (with a live engine) is constructed and stored.  Returns the agent,
the updated registry and the next fresh id. -/
def getHostAgent (reg : List (String × HostAgent)) (hkey : String) (fresh : Nat) :
    HostAgent × List (String × HostAgent) × Nat :=
  match lookupA reg hkey with
  | some ag =>
    if ag.engineStopped then
      (⟨fresh, false⟩, updateA reg hkey ⟨fresh, false⟩, fresh + 1)
    else (ag, reg, fresh)
  | none => (⟨fresh, false⟩, (hkey, ⟨fresh, false⟩) :: reg, fresh + 1)

/-- `Host.reset`: the registry is emptied. -/
def resetRegistry (_reg : List (String × HostAgent)) : List (String × HostAgent) := []

/-! Staging (`RemoteHost.send_to_host` / `receive_from_host`).  The argument
is a Python value: a string, a `path` object, a sequence of values, or
anything else. -/

/-- One element of a staging argument. -/
inductive SItem where
  | str (s : PStr)
  | pathv (p : PStr)
  | other (tag : Nat)
deriving DecidableEq

/-- A staging argument: a scalar value or a sequence. -/
inductive SArg where
  | scalar (x : SItem)
  | seq (xs : List SItem)
deriving DecidableEq

/-- The path carried by a string or `path` item (`None` for anything else —
such entries inside a sequence are dropped with an info log). -/
def itemPath : SItem → Option PStr
  | .str s => some s
  | .pathv p => some p
  | .other _ => none

/-- Decidable equality for `Except`, needed to evaluate staging outcomes. -/
instance {ε α : Type} [DecidableEq ε] [DecidableEq α] : DecidableEq (Except ε α) := fun a b =>
  match a, b with
  | .error e, .error f =>
    if h : e = f then isTrue (by rw [h]) else isFalse (fun hh => h (by cases hh; rfl))
  | .ok x, .ok y =>
    if h : x = y then isTrue (by rw [h]) else isFalse (fun hh => h (by cases hh; rfl))
  | .error _, .ok _ => isFalse (fun hh => Except.noConfusion hh)
  | .ok _, .error _ => isFalse (fun hh => Except.noConfusion hh)

/-- The observable outcome of a staging call: whether the unrecognised-items
warning fired, the transfer commands run (source, dest), and the returned
dictionary — or the source named by the RuntimeError raised on a failed
transfer. -/
structure StageOutcome where
  warnedUnrecognized : Bool
  transfers : List (PStr × PStr)
  result : Except PStr (List (PStr × PStr))
deriving DecidableEq

/-- The transfer loop of `send_to_host` over the sorted staging dictionary:
shared sources are skipped but still recorded in the returned map; other
sources are sent with rsync, a non-zero exit raising a RuntimeError naming
the source. -/
def sendLoop (fs : FileSystem) (pm : List (PStr × PStr)) (sh : List PStr) :
    List (PStr × PStr) → List (PStr × PStr) → List (PStr × PStr) →
      List (PStr × PStr) × Except PStr (List (PStr × PStr))
  | [], tr, sent => (tr.reverse, .ok sent.reverse)
  | (source, mapped) :: rest, tr, sent =>
    let dest := remoteAbs fs pm mapped
    if isShared fs sh pm source then
      sendLoop fs pm sh rest tr ((source, dest) :: sent)
    else if fs.transferOk source dest then
      sendLoop fs pm sh rest ((source, dest) :: tr) ((source, dest) :: sent)
    else (((source, dest) :: tr).reverse, .error source)

/-- The body of `send_to_host` on a list of paths: glob expansion, symlink
real-target discovery, the `_map_path` dictionary, and the transfer loop in
lexicographic source order. -/
def sendBody (fs : FileSystem) (pm : List (PStr × PStr)) (sh : List PStr)
    (p : List PStr) : List (PStr × PStr) × Except PStr (List (PStr × PStr)) :=
  let items := (p.map fs.glob).flatten
  let allItems := items ++ (items.map fs.linkTargets).flatten
  let sending := buildDict (allItems.map (fun s => (s, mapVar fs pm s)))
  sendLoop fs pm sh (sortPairs sending) [] []

/-- `RemoteHost.send_to_host`: strings and `path` objects are wrapped into a
one-element list, sequences keep their string/path elements, and any other
value is rejected with a warning and an empty dictionary. -/
def sendToHost (fs : FileSystem) (pm : List (PStr × PStr)) (sh : List PStr)
    (items : SArg) : StageOutcome :=
  match items with
  | .scalar (.str s) =>
    let r := sendBody fs pm sh [s]
    { warnedUnrecognized := false, transfers := r.1, result := r.2 }
  | .scalar (.pathv s) =>
    let r := sendBody fs pm sh [s]
    { warnedUnrecognized := false, transfers := r.1, result := r.2 }
  | .seq xs =>
    let r := sendBody fs pm sh (xs.filterMap itemPath)
    { warnedUnrecognized := false, transfers := r.1, result := r.2 }
  | .scalar (.other _) =>
    { warnedUnrecognized := true, transfers := [], result := .ok [] }

/-- The transfer loop of `receive_from_host` over the sorted receiving
dictionary (remote source, local dest): a shared destination with matching
basename is skipped; otherwise the receive command runs, a non-zero exit
raising a RuntimeError naming the source. -/
def recvLoop (fs : FileSystem) (pm : List (PStr × PStr)) (sh : List PStr) :
    List (PStr × PStr) → List (PStr × PStr) → List (PStr × PStr) →
      List (PStr × PStr) × Except PStr (List (PStr × PStr))
  | [], tr, recvd => (tr.reverse, .ok recvd.reverse)
  | (source, dest) :: rest, tr, recvd =>
    if isShared fs sh pm dest && (basename source == basename dest) then
      recvLoop fs pm sh rest tr ((dest, source) :: recvd)
    else if fs.transferOk source dest then
      recvLoop fs pm sh rest ((source, dest) :: tr) ((dest, source) :: recvd)
    else (((source, dest) :: tr).reverse, .error source)

/-- The body of `receive_from_host` on a list of paths: the receiving
dictionary keyed by absolute remote path, then the transfer loop in
lexicographic source order. -/
def recvBody (fs : FileSystem) (pm : List (PStr × PStr)) (sh : List PStr)
    (items : List PStr) : List (PStr × PStr) × Except PStr (List (PStr × PStr)) :=
  let receiving := buildDict (items.map (fun x => (remoteAbs fs pm (mapVar fs pm x), x)))
  recvLoop fs pm sh (sortPairs receiving) [] []

/-- `RemoteHost.receive_from_host`: the same argument dispatch as
`send_to_host`, with the unrecognised case returning an empty dictionary
after a warning. -/
def receiveFromHost (fs : FileSystem) (pm : List (PStr × PStr)) (sh : List PStr)
    (items : SArg) : StageOutcome :=
  match items with
  | .scalar (.str s) =>
    let r := recvBody fs pm sh [s]
    { warnedUnrecognized := false, transfers := r.1, result := r.2 }
  | .scalar (.pathv s) =>
    let r := recvBody fs pm sh [s]
    { warnedUnrecognized := false, transfers := r.1, result := r.2 }
  | .seq xs =>
    let r := recvBody fs pm sh (xs.filterMap itemPath)
    { warnedUnrecognized := false, transfers := r.1, result := r.2 }
  | .scalar (.other _) =>
    { warnedUnrecognized := true, transfers := [], result := .ok [] }

/-! Properties of the running-maximum combinator, mirroring Python's
`max(xs, key=len)`: the result is an element of the list whose key no other
element exceeds. -/

theorem pickFrom_mem (f : PStr × PStr → Nat) (xs : List (PStr × PStr)) :
    ∀ cur, pickFrom f cur xs ∈ cur :: xs := by
  induction xs with
  | nil => intro cur; simp [pickFrom]
  | cons q rest ih =>
    intro cur
    have h := ih (if f q > f cur then q else cur)
    rcases List.mem_cons.mp h with h1 | h1
    · simp only [pickFrom]
      rw [h1]
      split
      · exact List.mem_cons_of_mem _ (List.mem_cons_self _ _)
      · exact List.mem_cons_self _ _
    · simp only [pickFrom]
      exact List.mem_cons_of_mem _ (List.mem_cons_of_mem _ h1)

theorem pickFrom_max (f : PStr × PStr → Nat) (xs : List (PStr × PStr)) :
    ∀ cur, ∀ x ∈ cur :: xs, f x ≤ f (pickFrom f cur xs) := by
  induction xs with
  | nil =>
    intro cur x hx
    rcases List.mem_cons.mp hx with h | h
    · subst h; simp [pickFrom]
    · simp at h
  | cons q rest ih =>
    intro cur x hx
    simp only [pickFrom]
    have hcur : f cur ≤ f (if f q > f cur then q else cur) := by
      split
      · exact Nat.le_of_lt (by assumption)
      · exact Nat.le_refl _
    have hq : f q ≤ f (if f q > f cur then q else cur) := by
      split
      · exact Nat.le_refl _
      · exact Nat.le_of_not_lt (by assumption)
    have hhead := ih (if f q > f cur then q else cur) _
      (List.mem_cons_self (if f q > f cur then q else cur) rest)
    rcases List.mem_cons.mp hx with h | h
    · subst h; exact Nat.le_trans hcur hhead
    rcases List.mem_cons.mp h with h2 | h2
    · subst h2; exact Nat.le_trans hq hhead
    · exact ih _ x (List.mem_cons_of_mem _ h2)

theorem pickLongest_mem {f : PStr × PStr → Nat} {l : List (PStr × PStr)} {q : PStr × PStr}
    (h : pickLongest f l = some q) : q ∈ l := by
  cases l with
  | nil => simp [pickLongest] at h
  | cons a t =>
    simp only [pickLongest, Option.some.injEq] at h
    rw [← h]
    exact pickFrom_mem f t a

theorem pickLongest_max {f : PStr × PStr → Nat} {l : List (PStr × PStr)} {q : PStr × PStr}
    (h : pickLongest f l = some q) : ∀ x ∈ l, f x ≤ f q := by
  cases l with
  | nil => simp
  | cons a t =>
    simp only [pickLongest, Option.some.injEq] at h
    intro x hx
    rw [← h]
    exact pickFrom_max f t a x hx

theorem pickLongest_isSome {f : PStr × PStr → Nat} {l : List (PStr × PStr)}
    (h : l ≠ []) : ∃ q, pickLongest f l = some q := by
  cases l with
  | nil => exact absurd rfl h
  | cons a t => exact ⟨_, rfl⟩

/-- Separator normalisation does nothing to a string without backslashes. -/
theorem normSlash_eq_self {s : PStr} (h : '\\' ∉ s) : normSlash s = s := by
  unfold normSlash
  conv_rhs => rw [← List.map_id s]
  apply List.map_congr_left
  intro a ha
  have hne : a ≠ '\\' := fun e => h (e ▸ ha)
  simp [hne]

/-- Entries of the association-list update: the updated key now maps to the
new value (when it was present), other keys are untouched. -/
theorem lookupA_updateA {α : Type} (l : List (String × α)) (k : String) (v : α) :
    lookupA (updateA l k v) k = (lookupA l k).map (fun _ => v) := by
  induction l with
  | nil => simp [lookupA, updateA]
  | cons e t ih =>
    obtain ⟨e1, e2⟩ := e
    simp only [updateA, List.map_cons]
    simp only [updateA] at ih
    by_cases h : e1 = k
    · rw [if_pos (show ((e1, e2) : String × α).1 = k from h)]
      subst h
      simp [lookupA, ih]
    · rw [if_neg (show ¬ ((e1, e2) : String × α).1 = k from h)]
      simp [lookupA, h, ih]

theorem lookupA_updateA_ne {α : Type} (l : List (String × α)) (k k2 : String) (v : α)
    (h : k ≠ k2) : lookupA (updateA l k v) k2 = lookupA l k2 := by
  induction l with
  | nil => simp [lookupA, updateA]
  | cons e t ih =>
    obtain ⟨e1, e2⟩ := e
    simp only [updateA, List.map_cons]
    simp only [updateA] at ih
    by_cases he : e1 = k
    · rw [if_pos (show ((e1, e2) : String × α).1 = k from he)]
      subst he
      simp [lookupA, h, ih]
    · rw [if_neg (show ¬ ((e1, e2) : String × α).1 = k from he)]
      simp [lookupA, he, ih]

/-- When every socket creation in the retry window fails, the loop makes one
creation attempt per iteration, sleeping between iterations, and gives up
after exhausting the retries. -/
theorem connectLoop_all_fail (w : ConnectWorld) :
    ∀ r c s, (∀ i, c ≤ i → i ≤ c + r → w.createOk i = false) →
      connectLoop w r c s = (c + r + 1, s + r, false) := by
  intro r
  induction r with
  | zero =>
    intro c s h
    simp [connectLoop, h c (Nat.le_refl c) (by omega)]
  | succ r ih =>
    intro c s h
    have hc := h c (Nat.le_refl c) (by omega)
    rw [connectLoop, hc]
    simp only [Bool.false_eq_true, if_false]
    rw [ih (c + 1) (s + 1) (fun i h1 h2 => h i (by omega) (by omega))]
    have e1 : c + 1 + r + 1 = c + (r + 1) + 1 := by omega
    have e2 : s + 1 + r = s + (r + 1) := by omega
    rw [e1, e2]

/-- When the first successful socket creation happens at index `i` inside the
retry window, the loop returns success after `i + 1` creations and `i - c`
further sleeps. -/
theorem connectLoop_first_success (w : ConnectWorld) :
    ∀ r c s i, c ≤ i → i ≤ c + r → (∀ j, c ≤ j → j < i → w.createOk j = false) →
      w.createOk i = true →
      connectLoop w r c s = (i + 1, s + (i - c), true) := by
  intro r
  induction r with
  | zero =>
    intro c s i h1 h2 _hj hi
    have : i = c := by omega
    subst this
    simp [connectLoop, hi]
  | succ r ih =>
    intro c s i h1 h2 hj hi
    by_cases hc : c = i
    · subst hc
      simp [connectLoop, hi]
    · have hcf := hj c (Nat.le_refl c) (by omega)
      rw [connectLoop, hcf]
      simp only [Bool.false_eq_true, if_false]
      rw [ih (c + 1) (s + 1) i (by omega) (by omega) (fun j ha hb => hj j (by omega) hb) hi]
      have e2 : s + 1 + (i - (c + 1)) = s + (i - c) := by omega
      rw [e2]

/-- An exceeded numeric ceiling requires the ceiling to be configured. -/
theorem exceedsNat_isSome {a b : Option Nat} (h : exceedsNat a b = true) :
    a.isSome = true := by
  cases a <;> cases b <;> simp [exceedsNat] at h ⊢

/-- An exceeded walltime ceiling requires the ceiling to be configured. -/
theorem exceedsTime_isSome {et : String → Nat} {a b : Option String}
    (h : exceedsTime et a b = true) : a.isSome = true := by
  cases a <;> cases b <;> simp [exceedsTime] at h ⊢

/-- A subtask id not mentioned in the task stack keeps its entry untouched
by the subtask-rewriting loop. -/
theorem rewriteSubtasks_lookup_notmem (pm : List (PStr × PStr)) :
    ∀ (stack : List (String × SubParams)) (subs : List (String × Option (List PStr)))
      (tid : String), tid ∉ stack.map Prod.fst →
      lookupA (rewriteSubtasks pm stack subs) tid = lookupA subs tid := by
  intro stack
  induction stack with
  | nil => intro subs tid _h; rfl
  | cons e t ih =>
    intro subs tid h
    obtain ⟨tid0, sp0⟩ := e
    simp only [List.map_cons, List.mem_cons] at h
    push_neg at h
    obtain ⟨h0, ht⟩ := h
    rcases hl : lookupA subs tid0 with _ | (_ | out)
    · simp only [rewriteSubtasks, hl]
      exact ih subs tid ht
    · simp only [rewriteSubtasks, hl]
      exact ih subs tid ht
    · simp only [rewriteSubtasks, hl]
      rw [ih _ tid ht]
      exact lookupA_updateA_ne subs tid0 tid _ (fun e => h0 e.symm)

/-- Rewriting the subtasks along the task stack: a subtask present in both
the stack and the reported subtasks dictionary, with a reported output, ends
up with that output rewritten through its own declared `_output`. -/
theorem rewriteSubtasks_lookup (pm : List (PStr × PStr)) :
    ∀ (stack : List (String × SubParams)) (subs : List (String × Option (List PStr)))
      (tid : String) (sp : SubParams) (out : List PStr),
      (tid, sp) ∈ stack → (stack.map Prod.fst).Nodup →
      lookupA subs tid = some (some out) →
      lookupA (rewriteSubtasks pm stack subs) tid
        = some (some (rewriteOutput pm sp.outputDecl out)) := by
  intro stack
  induction stack with
  | nil => intro subs tid sp out hmem; simp at hmem
  | cons e t ih =>
    intro subs tid sp out hmem hnd hl
    obtain ⟨tid0, sp0⟩ := e
    simp only [List.map_cons, List.nodup_cons] at hnd
    obtain ⟨hnotin, hnd2⟩ := hnd
    rcases List.mem_cons.mp hmem with he | he
    · obtain ⟨rfl, rfl⟩ : tid0 = tid ∧ sp0 = sp := by
        cases he
        exact ⟨rfl, rfl⟩
      simp only [rewriteSubtasks, hl]
      rw [rewriteSubtasks_lookup_notmem pm t _ tid0 hnotin, lookupA_updateA, hl]
      rfl
    · have hne : tid0 ≠ tid := by
        intro e
        subst e
        exact hnotin (by simpa using List.mem_map_of_mem Prod.fst he)
      rcases hl0 : lookupA subs tid0 with _ | (_ | out0)
      · simp only [rewriteSubtasks, hl0]
        exact ih subs tid sp out he hnd2 hl
      · simp only [rewriteSubtasks, hl0]
        exact ih subs tid sp out he hnd2 hl
      · simp only [rewriteSubtasks, hl0]
        refine ih _ tid sp out he hnd2 ?_
        rw [lookupA_updateA_ne subs tid0 tid _ hne]
        exact hl

/-- C2: whenever more than one path-map key matches the leading segment of
the absolute, user-expanded path (by inode identity), `_map_var` picks a
matching key of maximal length, replaces it with its remote counterpart and
normalises separators to `/`; in particular with
`path_map = [/a -> /x, /a/b -> /y]`, `/a/b/c.txt` maps to `/y/c.txt` and
`/a/d.txt` maps to `/x/d.txt`. -/
theorem claim_C2_map_longest_match :
    (∀ (fs : FileSystem) (pm : List (PStr × PStr)) (source : PStr),
      startsHash source = false →
      2 ≤ (mapMatched fs pm (mapDest fs source)).length →
      ∃ q ∈ mapMatched fs pm (mapDest fs source),
        (∀ r ∈ mapMatched fs pm (mapDest fs source), r.1.length ≤ q.1.length) ∧
        mapVar fs pm source = normSlash (q.2 ++ (mapDest fs source).drop q.1.length))
    ∧ mapVar cfs [("/a".data, "/x".data), ("/a/b".data, "/y".data)] "/a/b/c.txt".data
        = "/y/c.txt".data
    ∧ mapVar cfs [("/a".data, "/x".data), ("/a/b".data, "/y".data)] "/a/d.txt".data
        = "/x/d.txt".data := by
  refine ⟨?_, by decide, by decide⟩
  intro fs pm source hh hm
  have hne : mapMatched fs pm (mapDest fs source) ≠ [] := by
    intro h0
    rw [h0] at hm
    simp at hm
  obtain ⟨q, hq⟩ := pickLongest_isSome (f := fun q => q.1.length) hne
  refine ⟨q, pickLongest_mem hq, fun r hr => pickLongest_max hq r hr, ?_⟩
  simp [mapVar, hh, hq]

/-- C2 witness: the two-entry map of the claim has two matching keys for
`/a/b/c.txt`, and the general longest-match theorem applies to it. -/
theorem claim_C2_map_longest_match_witness :
    startsHash "/a/b/c.txt".data = false ∧
    2 ≤ (mapMatched cfs [("/a".data, "/x".data), ("/a/b".data, "/y".data)]
          (mapDest cfs "/a/b/c.txt".data)).length ∧
    ∃ q ∈ mapMatched cfs [("/a".data, "/x".data), ("/a/b".data, "/y".data)]
            (mapDest cfs "/a/b/c.txt".data),
      (∀ r ∈ mapMatched cfs [("/a".data, "/x".data), ("/a/b".data, "/y".data)]
              (mapDest cfs "/a/b/c.txt".data), r.1.length ≤ q.1.length) ∧
      mapVar cfs [("/a".data, "/x".data), ("/a/b".data, "/y".data)] "/a/b/c.txt".data
        = normSlash (q.2 ++ (mapDest cfs "/a/b/c.txt".data).drop q.1.length) :=
  ⟨by decide, by decide,
    claim_C2_map_longest_match.1 cfs [("/a".data, "/x".data), ("/a/b".data, "/y".data)]
      "/a/b/c.txt".data (by decide) (by decide)⟩

/-- C3 counterexample: with `path_map = [/aaaa -> /x/, /b -> /x/y/]` and
input `/x/y/z`, the aligned pair with the longest matched remote side is
`(/b, /x/y/)`, whose substitution would yield `/bz`; the code instead
returns `/aaaay/z`, because `max(matched, key=len)` maximises the length of
the *local* key, not of the matched remote side. -/
theorem claim_C3_reverse_longest_cex :
    ("/b".data, "/x/y/".data) ∈
        reverseMatched [("/aaaa".data, "/x/".data), ("/b".data, "/x/y/".data)] "/x/y/z".data
    ∧ (∀ r ∈ reverseMatched [("/aaaa".data, "/x/".data), ("/b".data, "/x/y/".data)]
          "/x/y/z".data, r.2.length ≤ ("/x/y/".data : PStr).length)
    ∧ reverseMapVar [("/aaaa".data, "/x/".data), ("/b".data, "/x/y/".data)] "/x/y/z".data
        = "/aaaay/z".data
    ∧ reverseMapVarSpecRead [("/aaaa".data, "/x/".data), ("/b".data, "/x/y/".data)]
        "/x/y/z".data = "/bz".data
    ∧ reverseMapVar [("/aaaa".data, "/x/".data), ("/b".data, "/x/y/".data)] "/x/y/z".data
        ≠ reverseMapVarSpecRead [("/aaaa".data, "/x/".data), ("/b".data, "/x/y/".data)]
            "/x/y/z".data := by
  decide

/-- C3 amended: among all pairs whose remote side is a prefix of the input
aligned on a separator boundary, `_reverse_map_var` picks a pair whose
*local* side has maximal length, substitutes that local side for the
matched remote side, and normalises separators to `/`. -/
theorem claim_C3_reverse_longest_local (pm : List (PStr × PStr)) (dest : PStr)
    (h : reverseMatched pm dest ≠ []) :
    ∃ q ∈ reverseMatched pm dest,
      (∀ r ∈ reverseMatched pm dest, r.1.length ≤ q.1.length) ∧
      reverseMapVar pm dest = normSlash (q.1 ++ dest.drop q.2.length) := by
  obtain ⟨q, hq⟩ := pickLongest_isSome (f := fun q => q.1.length) h
  exact ⟨q, pickLongest_mem hq, fun r hr => pickLongest_max hq r hr,
    by simp [reverseMapVar, hq]⟩

/-- C3 witness: the amended theorem applied to the counterexample's map. -/
theorem claim_C3_reverse_longest_local_witness :
    reverseMatched [("/aaaa".data, "/x/".data), ("/b".data, "/x/y/".data)] "/x/y/z".data ≠ []
    ∧ ∃ q ∈ reverseMatched [("/aaaa".data, "/x/".data), ("/b".data, "/x/y/".data)]
          "/x/y/z".data,
        (∀ r ∈ reverseMatched [("/aaaa".data, "/x/".data), ("/b".data, "/x/y/".data)]
            "/x/y/z".data, r.1.length ≤ q.1.length) ∧
        reverseMapVar [("/aaaa".data, "/x/".data), ("/b".data, "/x/y/".data)] "/x/y/z".data
          = normSlash (q.1 ++ ("/x/y/z".data : PStr).drop q.2.length) :=
  ⟨by decide,
    claim_C3_reverse_longest_local [("/aaaa".data, "/x/".data), ("/b".data, "/x/y/".data)]
      "/x/y/z".data (by decide)⟩

/-- C4: `is_shared` holds exactly when the absolute, user-expanded path
starts with a shared entry and no path-map key covers it; in particular with
`shared = [/a]` and `path_map = [/a/b -> /y]`, `/a/b/foo` is not shared and
`/a/foo` is. -/
theorem claim_C4_is_shared :
    (∀ (fs : FileSystem) (sh : List PStr) (pm : List (PStr × PStr)) (p : PStr),
      isShared fs sh pm p = true ↔
        ((∃ s ∈ sh, s <+: fs.absPath p) ∧ ¬ ∃ q ∈ pm, q.1 <+: fs.absPath p))
    ∧ isShared cfs ["/a".data] [("/a/b".data, "/y".data)] "/a/b/foo".data = false
    ∧ isShared cfs ["/a".data] [("/a/b".data, "/y".data)] "/a/foo".data = true := by
  refine ⟨?_, by decide, by decide⟩
  intro fs sh pm p
  simp only [isShared, List.any_eq_true, Bool.and_eq_true, Bool.not_eq_true',
    List.any_eq_false, List.isPrefixOf_iff_prefix]
  constructor
  · rintro ⟨s, hs, hp, hn⟩
    exact ⟨⟨s, hs, hp⟩, fun ⟨q, hq, hqp⟩ => absurd hqp (by simpa using hn q hq)⟩
  · rintro ⟨⟨s, hs, hp⟩, hn⟩
    refine ⟨s, hs, hp, fun q hq => ?_⟩
    have : ¬ q.1 <+: fs.absPath p := fun hc => hn ⟨q, hq, hc⟩
    simpa using this

/-- C9: a second lookup right after a first returns the very same cached
agent and leaves the registry unchanged; after `reset` the registry is
empty, so the next lookup builds a fresh agent whose identity differs from
the old one; and a cached agent whose task engine has stopped is evicted:
the lookup returns and stores a fresh agent with a different identity. -/
theorem claim_C9_registry :
    (∀ (reg : List (String × HostAgent)) (hkey : String) (fresh : Nat),
      getHostAgent (getHostAgent reg hkey fresh).2.1 hkey (getHostAgent reg hkey fresh).2.2
        = getHostAgent reg hkey fresh)
    ∧ (∀ (reg : List (String × HostAgent)) (hkey : String) (fresh : Nat) (old : HostAgent),
        lookupA reg hkey = some old → old.aid < fresh →
        lookupA (resetRegistry reg) hkey = none ∧
        (getHostAgent (resetRegistry reg) hkey fresh).1.aid ≠ old.aid)
    ∧ (∀ (reg : List (String × HostAgent)) (hkey : String) (fresh : Nat) (ag : HostAgent),
        lookupA reg hkey = some ag → ag.engineStopped = true → ag.aid < fresh →
        (getHostAgent reg hkey fresh).1 = ⟨fresh, false⟩ ∧
        (getHostAgent reg hkey fresh).1.aid ≠ ag.aid ∧
        lookupA (getHostAgent reg hkey fresh).2.1 hkey = some ⟨fresh, false⟩) := by
  refine ⟨?_, ?_, ?_⟩
  · intro reg hkey fresh
    cases h : lookupA reg hkey with
    | none => simp [getHostAgent, h, lookupA]
    | some ag =>
      cases hs : ag.engineStopped with
      | true => simp [getHostAgent, h, hs, lookupA_updateA]
      | false => simp [getHostAgent, h, hs]
  · intro reg hkey fresh old _h hlt
    refine ⟨rfl, ?_⟩
    simp only [resetRegistry, getHostAgent, lookupA]
    omega
  · intro reg hkey fresh ag h hs hlt
    refine ⟨?_, ?_, ?_⟩
    · simp [getHostAgent, h, hs]
    · simp only [getHostAgent, h, hs]
      simp
      omega
    · simp [getHostAgent, h, hs, lookupA_updateA]

/-- C9 witness: a registry holding one stopped agent with identity 0: the
lookup evicts it, and after reset the next lookup is fresh as well. -/
theorem claim_C9_registry_witness :
    lookupA [("h", (⟨0, true⟩ : HostAgent))] "h" = some ⟨0, true⟩ ∧
    ((getHostAgent [("h", (⟨0, true⟩ : HostAgent))] "h" 1).1 = ⟨1, false⟩ ∧
     (getHostAgent [("h", (⟨0, true⟩ : HostAgent))] "h" 1).1.aid
       ≠ (⟨0, true⟩ : HostAgent).aid ∧
     lookupA (getHostAgent [("h", (⟨0, true⟩ : HostAgent))] "h" 1).2.1 "h"
       = some ⟨1, false⟩) ∧
    (lookupA (resetRegistry [("h", (⟨0, true⟩ : HostAgent))]) "h" = none ∧
     (getHostAgent (resetRegistry [("h", (⟨0, true⟩ : HostAgent))]) "h" 1).1.aid
       ≠ (⟨0, true⟩ : HostAgent).aid) :=
  ⟨by decide,
    claim_C9_registry.2.2 [("h", ⟨0, true⟩)] "h" 1 ⟨0, true⟩ (by decide) rfl (by decide),
    claim_C9_registry.2.1 [("h", ⟨0, true⟩)] "h" 1 ⟨0, true⟩ (by decide) (by decide)⟩

/-- C10: a staging argument that is neither a string, nor a path object, nor
a sequence is rejected with a warning: both `send_to_host` and
`receive_from_host` return the empty dictionary, run no transfer command and
raise no error. -/
theorem claim_C10_unrecognized (fs : FileSystem) (pm : List (PStr × PStr))
    (sh : List PStr) (t : Nat) :
    sendToHost fs pm sh (.scalar (.other t))
      = { warnedUnrecognized := true, transfers := [], result := .ok [] }
    ∧ receiveFromHost fs pm sh (.scalar (.other t))
      = { warnedUnrecognized := true, transfers := [], result := .ok [] } :=
  ⟨rfl, rfl⟩

/-- C5 counterexample: in a world where the cached-socket probe fails and
the first five socket creations fail, the claim predicts a fatal error after
those five failed attempts; the code instead makes a sixth creation attempt,
succeeds, and returns the socket (six creations, five one-second sleeps). -/
theorem claim_C5_connect_cex :
    (∀ n, n < 5 → (ConnectWorld.mk false (fun n => n == 5)).createOk n = false) ∧
    (connectToServer ⟨false, fun n => n == 5⟩).connected = true ∧
    (connectToServer ⟨false, fun n => n == 5⟩).creations = 6 ∧
    (connectToServer ⟨false, fun n => n == 5⟩).creations ≠ 5 := by
  decide

/-- C5 amended: a live cached socket is returned at once with no helper
start; otherwise the helper is started and up to six creation attempts are
made (the initial one plus five retries spaced by a one-second sleep): if
all six fail the fatal connectivity error is raised, and on the first
success the socket is cached and returned. -/
theorem claim_C5_connect_amended (w : ConnectWorld) :
    (w.cachedAlive = true →
      connectToServer w
        = { usedCache := true, helperStarted := false, creations := 0, sleeps := 0,
            connected := true })
    ∧ (w.cachedAlive = false →
        (connectToServer w).usedCache = false ∧ (connectToServer w).helperStarted = true
        ∧ ((∀ i, i ≤ 5 → w.createOk i = false) →
            connectToServer w
              = { usedCache := false, helperStarted := true, creations := 6, sleeps := 5,
                  connected := false })
        ∧ (∀ i, i ≤ 5 → (∀ j, j < i → w.createOk j = false) → w.createOk i = true →
            connectToServer w
              = { usedCache := false, helperStarted := true, creations := i + 1, sleeps := i,
                  connected := true })) := by
  constructor
  · intro h
    simp [connectToServer, h]
  · intro h
    refine ⟨by simp [connectToServer, h], by simp [connectToServer, h], ?_, ?_⟩
    · intro hall
      have hl := connectLoop_all_fail w 5 0 0 (fun i h1 h2 => hall i (by omega))
      simp [connectToServer, h, hl]
    · intro i hi hj hsucc
      have hl := connectLoop_first_success w 5 0 0 i (by omega) (by omega)
        (fun j h1 h2 => hj j h2) hsucc
      simp [connectToServer, h, hl]

/-- C5 witness: the amended theorem applied to the counterexample world,
where the sixth creation attempt (index 5) is the first to succeed. -/
theorem claim_C5_connect_amended_witness :
    (ConnectWorld.mk false (fun n => n == 5)).cachedAlive = false ∧
    connectToServer ⟨false, fun n => n == 5⟩
      = { usedCache := false, helperStarted := true, creations := 6, sleeps := 5,
          connected := true } :=
  ⟨rfl,
    ((claim_C5_connect_amended ⟨false, fun n => n == 5⟩).2 rfl).2.2.2 5 (by decide)
      (by decide) (by decide)⟩

/-- C6: a task requesting more mem, cores or walltime than a configured
ceiling makes `LocalHost.prepare_task` return `False`, and makes
`RemoteHost._prepare_task` raise so that the public `prepare_task` wrapper
catches the error and also returns `False` regardless of what the rest of
the preparation would have done. -/
theorem claim_C6_resource_ceiling (et : String → Nat) (cfg : HostLimits) (rt : TaskRuntime)
    (rest : Except String Unit)
    (h : exceedsNat cfg.maxMem rt.mem = true ∨ exceedsNat cfg.maxCores rt.cores = true ∨
         exceedsTime et cfg.maxWalltime rt.walltime = true) :
    localPrepareCheck et cfg rt = false ∧
    (∃ e, remotePrepareCheck et cfg rt = .error e) ∧
    remotePrepareTask et cfg rt rest = false := by
  refine ⟨?_, ?_, ?_⟩
  · rcases h with h1 | h1 | h1
    · simp [localPrepareCheck, exceedsNat_isSome h1, h1]
    · cases hm : exceedsNat cfg.maxMem rt.mem <;>
        simp [localPrepareCheck, exceedsNat_isSome h1, h1, hm]
    · cases hm : exceedsNat cfg.maxMem rt.mem <;>
        cases hc : exceedsNat cfg.maxCores rt.cores <;>
          simp [localPrepareCheck, exceedsTime_isSome h1, h1, hm, hc]
  · rcases h with h1 | h1 | h1
    · simp [remotePrepareCheck, h1]
    · cases hm : exceedsNat cfg.maxMem rt.mem <;>
        simp [remotePrepareCheck, h1, hm]
    · cases hm : exceedsNat cfg.maxMem rt.mem <;>
        cases hc : exceedsNat cfg.maxCores rt.cores <;>
          simp [remotePrepareCheck, h1, hm, hc]
  · rcases h with h1 | h1 | h1
    · simp [remotePrepareTask, remotePrepareCheck, h1, Bind.bind, Except.bind]
    · cases hm : exceedsNat cfg.maxMem rt.mem <;>
        simp [remotePrepareTask, remotePrepareCheck, h1, hm, Bind.bind, Except.bind]
    · cases hm : exceedsNat cfg.maxMem rt.mem <;>
        cases hc : exceedsNat cfg.maxCores rt.cores <;>
          simp [remotePrepareTask, remotePrepareCheck, h1, hm, hc, Bind.bind, Except.bind]

/-- C6 witness: `max_mem` of 1 GiB against a task requesting 2 GiB. -/
theorem claim_C6_resource_ceiling_witness :
    exceedsNat (some 1073741824) (some 2147483648) = true ∧
    localPrepareCheck (fun _ => 0) ⟨some 1073741824, none, none⟩
      ⟨some 2147483648, none, none⟩ = false ∧
    (∃ e, remotePrepareCheck (fun _ => 0) ⟨some 1073741824, none, none⟩
      ⟨some 2147483648, none, none⟩ = .error e) ∧
    remotePrepareTask (fun _ => 0) ⟨some 1073741824, none, none⟩
      ⟨some 2147483648, none, none⟩ (.ok ()) = false :=
  ⟨by decide,
    claim_C6_resource_ceiling (fun _ => 0) ⟨some 1073741824, none, none⟩
      ⟨some 2147483648, none, none⟩ (.ok ()) (Or.inl (by decide))⟩

/-- C7: a path-map string literal without exactly one `" -> "` separator
(missing, or occurring more than once) makes `_get_path_map` raise a
configuration error whose message contains the offending string —
in particular `"/a -> /b -> /c"` does — while a literal with exactly one
separator is split into its (from, to) pair. -/
theorem claim_C7_path_map_literal :
    (∀ (v : PStr) (rest : List PStr),
      countArrow v = 0 ∨ 1 < countArrow v →
      getPathMap (v :: rest) = .error (pathMapMsg v) ∧ v <:+: pathMapMsg v)
    ∧ getPathMap ["/a -> /b -> /c".data] = .error (pathMapMsg "/a -> /b -> /c".data)
    ∧ (∀ (v : PStr) (rest : List PStr) (a b : PStr),
        splitArrow v = [a, b] →
        getPathMap (v :: rest) = (getPathMap rest).map (fun r => (a, b) :: r))
    ∧ getPathMap ["/a -> /b".data] = .ok [("/a".data, "/b".data)] := by
  refine ⟨?_, by decide, ?_, by decide⟩
  · intro v rest h
    have hlen : (splitArrow v).length ≠ 2 := by
      unfold countArrow at h
      omega
    refine ⟨?_, "Path map should be separated as from -> to, ".data, " specified".data, rfl⟩
    cases hs : splitArrow v with
    | nil => simp [getPathMap, hs]
    | cons a t =>
      cases t with
      | nil => simp [getPathMap, hs]
      | cons b t2 =>
        cases t2 with
        | nil =>
          rw [hs] at hlen
          simp at hlen
        | cons c t3 => simp [getPathMap, hs]
  · intro v rest a b hs
    simp [getPathMap, hs]

/-- C7 witness: a separator-free literal is rejected with the error naming
it, and a well-formed literal later in the list is split into its pair. -/
theorem claim_C7_path_map_literal_witness :
    countArrow "x".data = 0 ∧
    (getPathMap ["x".data] = .error (pathMapMsg "x".data) ∧ "x".data <:+: pathMapMsg "x".data) ∧
    splitArrow "/p -> /q".data = ["/p".data, "/q".data] ∧
    getPathMap ["/p -> /q".data, "x".data]
      = (getPathMap ["x".data]).map (fun r => ("/p".data, "/q".data) :: r) :=
  ⟨by decide, claim_C7_path_map_literal.1 "x".data [] (Or.inl (by decide)),
    by decide,
    claim_C7_path_map_literal.2.2.1 "/p -> /q".data ["x".data] "/p".data "/q".data (by decide)⟩

/-- C8 counterexample: a successful result whose task declared a determined
`_output` (`/local/f`) while reporting `/remote/f`: the code replaces the
reported output by the declared one instead of reverse-mapping the reported
output (with an empty path map reverse-mapping would leave `/remote/f`
unchanged), so the output field is not rewritten via `reverse_map_path`. -/
theorem claim_C8_receive_rewrite_cex :
    (receiveResultRewrite [] ⟨some ⟨["/local/f".data], false⟩, []⟩
        ⟨some ["/remote/f".data], none⟩).output = some ["/local/f".data]
    ∧ (receiveResultRewrite [] ⟨some ⟨["/local/f".data], false⟩, []⟩
        ⟨some ["/remote/f".data], none⟩).output
      ≠ some (["/remote/f".data].map (reverseMapVar [])) := by
  decide

/-- C8 amended: on a successful result the reported `output` is rewritten
through `reverse_map_path` only when the declared `_output` is undetermined;
a determined declaration replaces the reported output outright and a missing
declaration empties it; and the same rule is applied, through each subtask's
own declaration, to every subtask of `task_stack` present in the reported
subtasks dictionary. -/
theorem claim_C8_receive_rewrite (pm : List (PStr × PStr)) (params : TaskParams)
    (res : TaskRes) :
    (∀ out, res.output = some out →
      (params.outputDecl = none → (receiveResultRewrite pm params res).output = some [])
      ∧ (∀ t, params.outputDecl = some t → t.undet = true →
          (receiveResultRewrite pm params res).output
            = some (out.map (reverseMapVar pm)))
      ∧ (∀ t, params.outputDecl = some t → t.undet = false →
          (receiveResultRewrite pm params res).output = some t.paths))
    ∧ (res.output = none → (receiveResultRewrite pm params res).output = none)
    ∧ (∀ subs tid sp out2,
        res.subtasks = some subs → (tid, sp) ∈ params.taskStack →
        (params.taskStack.map Prod.fst).Nodup →
        lookupA subs tid = some (some out2) →
        (receiveResultRewrite pm params res).subtasks
          = some (rewriteSubtasks pm params.taskStack subs)
        ∧ lookupA (rewriteSubtasks pm params.taskStack subs) tid
            = some (some (rewriteOutput pm sp.outputDecl out2))
        ∧ (∀ t, sp.outputDecl = some t → t.undet = true →
            rewriteOutput pm sp.outputDecl out2 = out2.map (reverseMapVar pm))) := by
  refine ⟨?_, ?_, ?_⟩
  · intro out hout
    refine ⟨?_, ?_, ?_⟩
    · intro hd
      cases hsub : res.subtasks <;>
        simp [receiveResultRewrite, hout, hsub, rewriteOutput, hd]
    · intro t hd hu
      cases hsub : res.subtasks <;>
        simp [receiveResultRewrite, hout, hsub, rewriteOutput, hd, hu]
    · intro t hd hu
      cases hsub : res.subtasks <;>
        simp [receiveResultRewrite, hout, hsub, rewriteOutput, hd, hu]
  · intro hout
    cases hsub : res.subtasks <;> simp [receiveResultRewrite, hout, hsub]
  · intro subs tid sp out2 hsub hmem hnd hl
    refine ⟨?_, rewriteSubtasks_lookup pm params.taskStack subs tid sp out2 hmem hnd hl, ?_⟩
    · cases hout : res.output <;> simp [receiveResultRewrite, hout, hsub]
    · intro t hd hu
      simp [rewriteOutput, hd, hu]

/-- C8 witness: an undetermined declared output with one subtask: both the
top-level output and the subtask's output are reverse-mapped
(`/r/a` to `/l/a` and `/r/b` to `/l/b` under the map `/l/ -> /r/`). -/
theorem claim_C8_receive_rewrite_witness :
    (receiveResultRewrite [("/l/".data, "/r/".data)]
        ⟨some ⟨[], true⟩, [("t1", ⟨some ⟨[], true⟩⟩)]⟩
        ⟨some ["/r/a".data], some [("t1", some ["/r/b".data])]⟩).output
      = some (["/r/a".data].map (reverseMapVar [("/l/".data, "/r/".data)]))
    ∧ lookupA (rewriteSubtasks [("/l/".data, "/r/".data)]
          [("t1", ⟨some ⟨[], true⟩⟩)] [("t1", some ["/r/b".data])]) "t1"
        = some (some (rewriteOutput [("/l/".data, "/r/".data)]
            (some ⟨[], true⟩) ["/r/b".data])) :=
  ⟨((claim_C8_receive_rewrite [("/l/".data, "/r/".data)]
      ⟨some ⟨[], true⟩, [("t1", ⟨some ⟨[], true⟩⟩)]⟩
      ⟨some ["/r/a".data], some [("t1", some ["/r/b".data])]⟩).1
        ["/r/a".data] rfl).2.1 ⟨[], true⟩ rfl rfl,
   ((claim_C8_receive_rewrite [("/l/".data, "/r/".data)]
      ⟨some ⟨[], true⟩, [("t1", ⟨some ⟨[], true⟩⟩)]⟩
      ⟨some ["/r/a".data], some [("t1", some ["/r/b".data])]⟩).2.2
        [("t1", some ["/r/b".data])] "t1" ⟨some ⟨[], true⟩⟩ ["/r/b".data]
        rfl (by decide) (by decide) (by decide)).2.1⟩

/-- C1 counterexample: with the non-injective map
`[/a/ -> /x/, /b/ -> /x/]` the local path `/b/f` is covered by the entry
`/b/`, maps forward to `/x/f`, but reverse-maps to `/a/f` (the tie on local
key length is broken by dictionary order), so the round trip does not return
the original path. -/
theorem claim_C1_round_trip_cex :
    (("/b/".data, "/x/".data) ∈ [("/a/".data, "/x/".data), ("/b/".data, "/x/".data)]
      ∧ ("/b/".data : PStr) <+: "/b/f".data)
    ∧ mapVar cfs [("/a/".data, "/x/".data), ("/b/".data, "/x/".data)] "/b/f".data
        = "/x/f".data
    ∧ reverseMapVar [("/a/".data, "/x/".data), ("/b/".data, "/x/".data)]
        (mapVar cfs [("/a/".data, "/x/".data), ("/b/".data, "/x/".data)] "/b/f".data)
      ≠ "/b/f".data := by
  decide

/-- C1 amended: the round trip `reverse_map_path(map_path(p)) = p` holds for
every covered local path provided the configuration is unambiguous: on a
filesystem where inode identity is string equality and every path exists,
for an absolute, backslash-free, non-named path `p` covered by some path-map
key, when the remote sides of the map end in `/`, contain no backslash and
are pairwise non-prefix-comparable (in particular pairwise distinct). -/
theorem claim_C1_round_trip (fs : FileSystem) (pm : List (PStr × PStr)) (p : PStr)
    (hsame : ∀ a b, fs.samefile a b = (a == b))
    (hex : ∀ a, fs.existsPath a = true)
    (habs : fs.absPath p = p)
    (hhash : startsHash p = false)
    (hnb : '\\' ∉ p)
    (hvsep : ∀ q ∈ pm, q.2.getLast? = some '/')
    (hvnb : ∀ q ∈ pm, '\\' ∉ q.2)
    (hpf : pm.Pairwise (fun q r => ¬ q.2 <+: r.2 ∧ ¬ r.2 <+: q.2))
    (hcov : ∃ q ∈ pm, q.1 <+: p) :
    reverseMapVar pm (mapVar fs pm p) = p := by
  have hdest : mapDest fs p = p := by
    unfold mapDest
    simp only [habs, hex, hsame, Bool.true_and]
    split
    · next hcond =>
      have hc : p.take fs.cwd.length = fs.cwd := by simpa using hcond
      calc fs.cwd ++ p.drop fs.cwd.length
          = p.take fs.cwd.length ++ p.drop fs.cwd.length := by rw [hc]
        _ = p := List.take_append_drop _ _
    · rfl
  have hmm : ∀ q, q ∈ mapMatched fs pm p ↔ (q ∈ pm ∧ q.1 <+: p) := by
    intro q
    unfold mapMatched
    rw [List.mem_filter]
    simp only [hex, hsame, Bool.true_and, beq_iff_eq]
    constructor
    · rintro ⟨hq, he⟩
      exact ⟨hq, by rw [List.prefix_iff_eq_take]; exact he.symm⟩
    · rintro ⟨hq, he⟩
      exact ⟨hq, (List.prefix_iff_eq_take.mp he).symm⟩
  obtain ⟨q0, hq0pm, hq0p⟩ := hcov
  have hq0m : q0 ∈ mapMatched fs pm p := (hmm q0).mpr ⟨hq0pm, hq0p⟩
  have hne : mapMatched fs pm p ≠ [] := by
    intro h0
    rw [h0] at hq0m
    simp at hq0m
  obtain ⟨qs, hqs⟩ := pickLongest_isSome (f := fun q => q.1.length) hne
  have hqsm : qs ∈ pm ∧ qs.1 <+: p := (hmm qs).mp (pickLongest_mem hqs)
  have hout : mapVar fs pm p = qs.2 ++ p.drop qs.1.length := by
    have h1 : mapVar fs pm p = normSlash (qs.2 ++ p.drop qs.1.length) := by
      simp [mapVar, hhash, hdest, hqs]
    rw [h1]
    apply normSlash_eq_self
    intro hmem
    rcases List.mem_append.mp hmem with h | h
    · exact hvnb qs hqsm.1 h
    · exact hnb (List.mem_of_mem_drop h)
  have hqsr : qs ∈ reverseMatched pm (qs.2 ++ p.drop qs.1.length) := by
    unfold reverseMatched
    rw [List.mem_filter]
    refine ⟨hqsm.1, ?_⟩
    have h1 : qs.2.isPrefixOf (qs.2 ++ p.drop qs.1.length) = true :=
      List.isPrefixOf_iff_prefix.mpr (List.prefix_append _ _)
    have h2 : (qs.2.getLast? == some '/') = true := beq_iff_eq.mpr (hvsep qs hqsm.1)
    rw [h1, h2]
    simp
  have huniq : ∀ q ∈ reverseMatched pm (qs.2 ++ p.drop qs.1.length), q = qs := by
    intro q hq
    unfold reverseMatched at hq
    rw [List.mem_filter] at hq
    obtain ⟨hqpm, hcond⟩ := hq
    have h1 : q.2.isPrefixOf (qs.2 ++ p.drop qs.1.length) = true := by
      by_contra hfalse
      rw [Bool.not_eq_true] at hfalse
      rw [hfalse] at hcond
      simp at hcond
    have hpre : q.2 <+: qs.2 ++ p.drop qs.1.length := List.isPrefixOf_iff_prefix.mp h1
    by_contra hneq
    have hR := List.Pairwise.forall (R := fun q r => ¬ q.2 <+: r.2 ∧ ¬ r.2 <+: q.2)
      (fun a b h => ⟨h.2, h.1⟩) hpf hqpm hqsm.1 hneq
    have hqs_pre : qs.2 <+: qs.2 ++ p.drop qs.1.length := List.prefix_append _ _
    rcases Nat.le_total q.2.length qs.2.length with hle | hle
    · exact hR.1 (List.prefix_of_prefix_length_le hpre hqs_pre hle)
    · exact hR.2 (List.prefix_of_prefix_length_le hqs_pre hpre hle)
  have hne2 : reverseMatched pm (qs.2 ++ p.drop qs.1.length) ≠ [] := by
    intro h0
    rw [h0] at hqsr
    simp at hqsr
  obtain ⟨qr, hqr⟩ := pickLongest_isSome (f := fun q => q.1.length) hne2
  have hqreq : qr = qs := huniq qr (pickLongest_mem hqr)
  rw [hqreq] at hqr
  have hrm : reverseMapVar pm (qs.2 ++ p.drop qs.1.length)
      = normSlash (qs.1 ++ (qs.2 ++ p.drop qs.1.length).drop qs.2.length) := by
    simp [reverseMapVar, hqr]
  have hjoin : qs.1 ++ p.drop qs.1.length = p := List.prefix_iff_eq_append.mp hqsm.2
  rw [hout, hrm, List.drop_left, hjoin]
  exact normSlash_eq_self hnb

/-- C1 witness: the single-entry map `/a/ -> /x/` round-trips `/a/f`. -/
theorem claim_C1_round_trip_witness :
    (∃ q ∈ [("/a/".data, "/x/".data)], q.1 <+: "/a/f".data) ∧
    reverseMapVar [("/a/".data, "/x/".data)]
      (mapVar cfs [("/a/".data, "/x/".data)] "/a/f".data) = "/a/f".data :=
  ⟨⟨("/a/".data, "/x/".data), by decide, by decide⟩,
    claim_C1_round_trip cfs [("/a/".data, "/x/".data)] "/a/f".data
      (fun _ _ => rfl) (fun _ => rfl) rfl rfl (by decide) (by decide) (by decide)
      (by simp) ⟨("/a/".data, "/x/".data), by decide, by decide⟩⟩

end Hosts
